import Mathlib

/-!
Verification of the judging core of jd4 (`jd4/case.py`): a shallow
embedding of the verdict classifier, the judging orchestrator's task
ordering, the dos2unix byte-stream normalizer, the two case variants
(`LegacyCase` and `APlusBCase`) and the legacy archive case reader,
together with theorems settling the specification's claims about them.

Conventions of the embedding:
* Python floats (time limits in seconds, memory limits in kilobytes) are
  modelled as exact rationals `ℚ`; Python `int(x)` (truncation toward
  zero) is `pyTrunc`.
* Byte streams are lists of naturals; text is `String`.
* Python exceptions are `Except`; a generator that can raise mid-stream
  becomes a function returning `Except e (List _)`.
* External collaborators (zipfile, the stream comparator, the sandbox,
  the cgroup monitor) are abstracted as parameters, exactly at the
  boundary where `case.py` calls them.
-/

namespace JD4

/-- Status constants imported by `case.py` from `jd4.status`.  Only their
distinctness matters to the classifier, so they are an enumeration. -/
inductive Status
  | ACCEPTED
  | WRONG_ANSWER
  | RUNTIME_ERROR
  | TIME_LIMIT_EXCEEDED
  | MEMORY_LIMIT_EXCEEDED
deriving DecidableEq

/-- Module constant `CHUNK_SIZE = 32768` (case.py line 16). -/
def CHUNK_SIZE : ℕ := 32768

/-- Module constant `MAX_STDERR_SIZE = 8192` (case.py line 17). -/
def MAX_STDERR_SIZE : ℕ := 8192

/-- Module constant `DEFAULT_MEM_KB = 262144` (case.py line 19). -/
def DEFAULT_MEM_KB : ℕ := 262144

/-- Module constant `PROCESS_LIMIT = 64` (case.py line 20). -/
def PROCESS_LIMIT : ℕ := 64

/-- Python `int(q)` on a real value: truncation toward zero. -/
def pyTrunc (q : ℚ) : ℤ := if 0 ≤ q then ⌊q⌋ else -⌊-q⌋

/-- The attributes set by `CaseBase.__init__` (case.py lines 22-27). -/
structure CaseBase where
  time_limit_ns : ℤ
  memory_limit_bytes : ℤ
  process_limit : ℕ
  score : ℤ
deriving DecidableEq

/-- Classification step of `CaseBase.judge` (case.py lines 59-74): from the
gathered measurements `(execute_status, correct, time_usage_ns,
memory_usage_bytes, stderr)` it produces the verdict tuple
`(status, score, time_usage_ns, memory_usage_bytes, stderr)`.
Python's `elif execute_status:` tests integer truthiness, i.e. nonzero. -/
def CaseBase.judge (c : CaseBase) (execute_status : ℤ) (correct : Bool)
    (time_usage_ns memory_usage_bytes : ℤ) (stderr : List ℕ) :
    Status × ℤ × ℤ × ℤ × List ℕ :=
  if memory_usage_bytes ≥ c.memory_limit_bytes then
    (Status.MEMORY_LIMIT_EXCEEDED, 0, time_usage_ns, memory_usage_bytes, stderr)
  else if time_usage_ns ≥ c.time_limit_ns then
    (Status.TIME_LIMIT_EXCEEDED, 0, time_usage_ns, memory_usage_bytes, stderr)
  else if execute_status ≠ 0 then
    (Status.RUNTIME_ERROR, 0, time_usage_ns, memory_usage_bytes, stderr)
  else if correct = false then
    (Status.WRONG_ANSWER, 0, time_usage_ns, memory_usage_bytes, stderr)
  else
    (Status.ACCEPTED, c.score, time_usage_ns, memory_usage_bytes, stderr)

/-- C1: the classification step of `judge` produces exactly one status,
chosen by first-match order: memory at or above the limit gives
MEMORY_LIMIT_EXCEEDED with score 0; otherwise time at or above the limit
gives TIME_LIMIT_EXCEEDED with score 0; otherwise a nonzero exit status
gives RUNTIME_ERROR with score 0; otherwise incorrect output gives
WRONG_ANSWER with score 0; otherwise ACCEPTED with the configured score.
Usage exactly equal to a limit already counts as exceeding it (the
comparisons below are `≤` against the limit on the left).  The five
guards are mutually exclusive and exhaustive, and `judge` is a total
function, so exactly one status is produced for every input. -/
theorem judge_precedence (c : CaseBase) (es : ℤ) (corr : Bool)
    (t m : ℤ) (se : List ℕ) :
    (c.memory_limit_bytes ≤ m →
      c.judge es corr t m se = (Status.MEMORY_LIMIT_EXCEEDED, 0, t, m, se)) ∧
    (m < c.memory_limit_bytes → c.time_limit_ns ≤ t →
      c.judge es corr t m se = (Status.TIME_LIMIT_EXCEEDED, 0, t, m, se)) ∧
    (m < c.memory_limit_bytes → t < c.time_limit_ns → es ≠ 0 →
      c.judge es corr t m se = (Status.RUNTIME_ERROR, 0, t, m, se)) ∧
    (m < c.memory_limit_bytes → t < c.time_limit_ns → es = 0 → corr = false →
      c.judge es corr t m se = (Status.WRONG_ANSWER, 0, t, m, se)) ∧
    (m < c.memory_limit_bytes → t < c.time_limit_ns → es = 0 → corr = true →
      c.judge es corr t m se = (Status.ACCEPTED, c.score, t, m, se)) := by
  refine ⟨?_, ?_, ?_, ?_, ?_⟩ <;> intros <;> unfold CaseBase.judge <;>
    split_ifs <;> first | rfl | omega | simp_all

/-- Witness for C1 at concrete inputs: an in-limit, clean, correct run is
ACCEPTED with the configured score. -/
theorem judge_precedence_w :
    CaseBase.judge ⟨1000, 2000, 64, 7⟩ 0 true 5 6 [] =
      (Status.ACCEPTED, 7, 5, 6, []) :=
  (judge_precedence ⟨1000, 2000, 64, 7⟩ 0 true 5 6 []).2.2.2.2
    (by decide) (by decide) rfl rfl

/-- The five concurrent activities orchestrated by `CaseBase.judge`
(case.py lines 41-55): the execute task and the four auxiliary tasks. -/
inductive TaskId
  | execute
  | stdin_feed
  | stdout_compare
  | stderr_read
  | cgroup_wait
deriving DecidableEq

/-- Orchestration events of one run of `CaseBase.judge`, in the order the
orchestrator performs them: scheduling a task, observing a task's
completion (the corresponding await returning), and classifying. -/
inductive Event
  | schedule : TaskId → Event
  | complete : TaskId → Event
  | classify
deriving DecidableEq

/-- Program-order trace of the orchestrator body of `CaseBase.judge`
(case.py lines 41-74): `loop.create_task(executable.execute(...))`
schedules the execute task (line 41); the `gather(...)` call then starts
the four auxiliary tasks in its argument order (lines 47-55);
`await execute_task` (line 56) and `await others_task` (lines 57-58)
observe completion of the execute task and — since `gather` resolves only
once every one of its four tasks has completed, with no short-circuit on
first completion — of all four auxiliary tasks; only then does the
classification (lines 59-74) run. -/
def judgeTrace : List Event :=
  [Event.schedule TaskId.execute,
   Event.schedule TaskId.stdin_feed,
   Event.schedule TaskId.stdout_compare,
   Event.schedule TaskId.stderr_read,
   Event.schedule TaskId.cgroup_wait,
   Event.complete TaskId.execute,
   Event.complete TaskId.stdin_feed,
   Event.complete TaskId.stdout_compare,
   Event.complete TaskId.stderr_read,
   Event.complete TaskId.cgroup_wait,
   Event.classify]

/-- C2: in the orchestrator's trace the execute task is scheduled before
each of the four auxiliary tasks is started, every one of the five tasks
has its completion observed (a join of all five, none skipped), and the
classification comes strictly after all five completions. -/
theorem judge_trace_ordering :
    (judgeTrace.indexOf (Event.schedule TaskId.execute) <
       judgeTrace.indexOf (Event.schedule TaskId.stdin_feed) ∧
     judgeTrace.indexOf (Event.schedule TaskId.execute) <
       judgeTrace.indexOf (Event.schedule TaskId.stdout_compare) ∧
     judgeTrace.indexOf (Event.schedule TaskId.execute) <
       judgeTrace.indexOf (Event.schedule TaskId.stderr_read) ∧
     judgeTrace.indexOf (Event.schedule TaskId.execute) <
       judgeTrace.indexOf (Event.schedule TaskId.cgroup_wait)) ∧
    (Event.complete TaskId.execute ∈ judgeTrace ∧
     Event.complete TaskId.stdin_feed ∈ judgeTrace ∧
     Event.complete TaskId.stdout_compare ∈ judgeTrace ∧
     Event.complete TaskId.stderr_read ∈ judgeTrace ∧
     Event.complete TaskId.cgroup_wait ∈ judgeTrace) ∧
    (judgeTrace.indexOf (Event.complete TaskId.execute) <
       judgeTrace.indexOf Event.classify ∧
     judgeTrace.indexOf (Event.complete TaskId.stdin_feed) <
       judgeTrace.indexOf Event.classify ∧
     judgeTrace.indexOf (Event.complete TaskId.stdout_compare) <
       judgeTrace.indexOf Event.classify ∧
     judgeTrace.indexOf (Event.complete TaskId.stderr_read) <
       judgeTrace.indexOf Event.classify ∧
     judgeTrace.indexOf (Event.complete TaskId.cgroup_wait) <
       judgeTrace.indexOf Event.classify) ∧
    Event.classify ∈ judgeTrace := by
  decide

/-- Errors a write to the stdin fifo can raise.  `broken_pipe` models
Python's `BrokenPipeError` (the reader exited or closed its end before
the input was fully written); `other` stands for any other exception. -/
inductive WriteError
  | broken_pipe
  | other
deriving DecidableEq

/-- Fields of `LegacyCase` (case.py lines 84-88): the `CaseBase`
attributes plus the lazily-opened input/output accessors, modelled by the
resolved archive entry names they are bound to
(`partial(zip_file.open, canonical_dict[...])`). -/
structure LegacyCase extends CaseBase where
  open_input : String
  open_output : String
deriving DecidableEq

/-- Constructor `LegacyCase.__init__` (case.py lines 85-88):
`super().__init__(int(time_sec * 1e9), int(mem_kb * 1024), PROCESS_LIMIT,
score)` plus the two accessors.  No process-limit parameter exists; the
module constant `PROCESS_LIMIT` is always passed. -/
def LegacyCase.init (open_input open_output : String) (time_sec mem_kb : ℚ)
    (score : ℤ) : LegacyCase :=
  { time_limit_ns := pyTrunc (time_sec * 10 ^ 9),
    memory_limit_bytes := pyTrunc (mem_kb * 1024),
    process_limit := PROCESS_LIMIT,
    score := score,
    open_input := open_input,
    open_output := open_output }

/-- Fields of `APlusBCase` (case.py lines 101-105): the `CaseBase`
attributes plus the two operands. -/
structure APlusBCase extends CaseBase where
  a : ℤ
  b : ℤ
deriving DecidableEq

/-- Constructor `APlusBCase.__init__` (case.py lines 102-105):
`super().__init__(time_limit_ns, memory_limit_bytes, PROCESS_LIMIT,
score)` plus the operands.  No process-limit parameter exists. -/
def APlusBCase.init (a b : ℤ) (time_limit_ns memory_limit_bytes score : ℤ) :
    APlusBCase :=
  { time_limit_ns := time_limit_ns,
    memory_limit_bytes := memory_limit_bytes,
    process_limit := PROCESS_LIMIT,
    score := score,
    a := a,
    b := b }

/-- Normalizer `dos2unix` (case.py lines 76-82): repeatedly read a chunk
from the source, stop at the first empty read (end of stream), strip every
carriage-return byte (`buf.replace` removes all 0x0D bytes, newline
context or not) and append the rest to the destination.  The source
stream is modelled by its list of successive reads. -/
def dos2unix : List (List ℕ) → List ℕ
  | [] => []
  | buf :: rest =>
    if buf = [] then []
    else buf.filter (fun b => b != 13) ++ dos2unix rest

/-- Body of `LegacyCase.do_stdin` (case.py lines 90-95): the dos2unix copy
of the case input into the stdin fifo, whose outcome is `write_input`, is
wrapped in `try ... except BrokenPipeError: pass`, so a broken pipe is
absorbed and the function returns normally; any other exception
propagates. -/
def LegacyCase.do_stdin (_c : LegacyCase)
    (write_input : Except WriteError Unit) : Except WriteError Unit :=
  match write_input with
  | Except.error WriteError.broken_pipe => Except.ok ()
  | r => r

/-- Input text written by `APlusBCase.do_stdin` (case.py line 110):
Python renders `'{} {}\n'.format(a, b)` as the decimal form of `a`, one
space, the decimal form of `b`, one newline. -/
def APlusBCase.stdin_payload (c : APlusBCase) : String :=
  toString c.a ++ " " ++ toString c.b ++ "\n"

/-- Body of `APlusBCase.do_stdin` (case.py lines 107-112): write the
payload to the stdin fifo (the write action is abstracted as `write`),
absorbing `BrokenPipeError` and propagating anything else. -/
def APlusBCase.do_stdin (c : APlusBCase)
    (write : String → Except WriteError Unit) : Except WriteError Unit :=
  match write c.stdin_payload with
  | Except.error WriteError.broken_pipe => Except.ok ()
  | r => r

/-- Body of `APlusBCase.do_stdout` (case.py lines 114-116): return
`compare_stream(BytesIO(str(self.a + self.b)), file)` — the comparator
(external, abstracted as `compare_stream`) applied to an expected stream
holding exactly the decimal string of `a + b` and to the actual output. -/
def APlusBCase.do_stdout {σ : Type} (c : APlusBCase)
    (compare_stream : String → σ → Bool) (out : σ) : Bool :=
  compare_stream (toString (c.a + c.b)) out

/-- Tail of `CaseBase.judge` after the awaits (case.py lines 56-74): the
gathered results are destructured as `_, correct, stderr, usage` — the
stdin task's value is bound to `_` and ignored — and classification runs
on the rest.  If the stdin task ended in an unabsorbed exception, `gather`
re-raises it and `judge` propagates instead of classifying. -/
def CaseBase.judge_run (c : CaseBase) (stdin_res : Except WriteError Unit)
    (execute_status : ℤ) (correct : Bool) (time_usage_ns memory_usage_bytes : ℤ)
    (stderr : List ℕ) : Except WriteError (Status × ℤ × ℤ × ℤ × List ℕ) :=
  match stdin_res with
  | Except.error e => Except.error e
  | Except.ok _ =>
    Except.ok (c.judge execute_status correct time_usage_ns memory_usage_bytes stderr)

/-- C3: a broken-pipe failure while feeding stdin is absorbed by
`do_stdin` of either case variant, which returns normally, and the
verdict `judge` then returns is exactly the classification of exit
status, correctness and resource usage — the early closure itself never
surfaces as a judging failure. -/
theorem do_stdin_broken_pipe (lc : LegacyCase) (ac : APlusBCase)
    (es : ℤ) (corr : Bool) (t m : ℤ) (se : List ℕ) :
    lc.do_stdin (Except.error WriteError.broken_pipe) = Except.ok () ∧
    ac.do_stdin (fun _ => Except.error WriteError.broken_pipe) = Except.ok () ∧
    lc.toCaseBase.judge_run (lc.do_stdin (Except.error WriteError.broken_pipe))
        es corr t m se =
      Except.ok (lc.toCaseBase.judge es corr t m se) ∧
    ac.toCaseBase.judge_run
        (ac.do_stdin (fun _ => Except.error WriteError.broken_pipe))
        es corr t m se =
      Except.ok (ac.toCaseBase.judge es corr t m se) :=
  ⟨rfl, rfl, rfl, rfl⟩

/-- C8: dos2unix writes exactly the source bytes with every 0x0D byte
removed and all others kept in order, for any way of splitting the source
into (nonempty) reads; two chunkings of the same byte sequence therefore
produce the same output. -/
theorem dos2unix_strips_cr (chunks : List (List ℕ))
    (h : ∀ c ∈ chunks, c ≠ []) :
    dos2unix chunks = chunks.flatten.filter (fun b => b != 13) ∧
    ∀ chunks', (∀ c ∈ chunks', c ≠ []) → chunks'.flatten = chunks.flatten →
      dos2unix chunks' = dos2unix chunks := by
  have key : ∀ l : List (List ℕ), (∀ c ∈ l, c ≠ []) →
      dos2unix l = l.flatten.filter (fun b => b != 13) := by
    intro l
    induction l with
    | nil => intro _; simp [dos2unix]
    | cons buf rest ih =>
      intro hl
      have hbuf : buf ≠ [] := hl buf (List.mem_cons_self _ _)
      have hrest : ∀ c ∈ rest, c ≠ [] := fun c hc => hl c (List.mem_cons_of_mem _ hc)
      simp [dos2unix, hbuf, ih hrest, List.filter_append]
  refine ⟨key chunks h, fun chunks' h' hjoin => ?_⟩
  rw [key chunks h, key chunks' h', hjoin]

/-- Witness for C8: the stream read as chunks `[0x61, 0x0D]`,
`[0x0D, 0x0A]` normalizes to `[0x61, 0x0A]` — both carriage returns
dropped, the one before a newline and the one not followed by one. -/
theorem dos2unix_strips_cr_w :
    dos2unix [[97, 13], [13, 10]] = [97, 10] := by
  have h := (dos2unix_strips_cr [[97, 13], [13, 10]] (by decide)).1
  simpa using h

/-- Python `str.lower()` as used on archive entry and manifest names
(case.py lines 120, 130-131): lowercase every character.  `Char.toLower`
agrees with Python on the ASCII range these names live in. -/
def pyLower (s : String) : String := String.mk (s.data.map Char.toLower)

/-- Map `canonical_dict` (case.py line 120):
`dict((name.lower(), name) for name in zip_file.namelist())`.  Looking up
a key returns the original name of the last archive entry whose lowered
form equals the key (in a dict comprehension a later duplicate key
overwrites an earlier one); a key no entry lowers to raises `KeyError`,
modelled as `none`. -/
def canonical_dict (names : List String) (key : String) : Option String :=
  (names.filter (fun n => pyLower n == key)).getLast?

/-- One parsed manifest data line `input|output|time_sec|score[|mem_kb]`
(case.py lines 124-129).  The numeric fields hold the values of
`float(time_sec_str)`, `int(score_str)` and `float(line[4])`; `mem_kb` is
`none` exactly when `float(line[4])` raised `IndexError` (fifth column
absent) or `ValueError` (not parsable as a number). -/
structure ManifestRecord where
  input : String
  output : String
  time_sec : ℚ
  score : ℤ
  mem_kb : Option ℚ
deriving DecidableEq

/-- Loop body of `read_legacy_cases` for one manifest record (case.py
lines 125-132): resolve `path.join('input', input.lower())` and
`path.join('output', output.lower())` through `canonical_dict` — a failed
lookup raises `KeyError` — and construct the `LegacyCase` from the
resolved original-cased entry names, the record's time limit, the
memory-limit column's value or `DEFAULT_MEM_KB` when that column was
absent or unparsable, and the record's score. -/
def case_of_record (names : List String) (r : ManifestRecord) :
    Except String LegacyCase :=
  match canonical_dict names ("input/" ++ pyLower r.input),
        canonical_dict names ("output/" ++ pyLower r.output) with
  | some i, some o =>
    Except.ok (LegacyCase.init i o r.time_sec
      (r.mem_kb.getD (DEFAULT_MEM_KB : ℚ)) r.score)
  | _, _ => Except.error "KeyError"

/-- Case generation loop of `read_legacy_cases` (case.py line 124):
`islice(csv.reader(config, delimiter='|'), num_cases)` yields records one
by one; an exception raised while handling a record aborts the generator
there. -/
def read_cases_loop (names : List String) :
    List ManifestRecord → Except String (List LegacyCase)
  | [] => Except.ok []
  | r :: rest =>
    match case_of_record names r with
    | Except.error e => Except.error e
    | Except.ok c =>
      match read_cases_loop names rest with
      | Except.error e => Except.error e
      | Except.ok cs => Except.ok (c :: cs)

/-- Generator `read_legacy_cases` (case.py lines 118-132) after the
archive has been listed (`names` is `zip_file.namelist()`) and the
manifest located through `canonical_dict['config.ini']` and its first
line parsed into `num_cases` (lines 121-123): `islice(..., num_cases)`
takes AT MOST `num_cases` manifest records — it simply stops, without an
error, when the manifest has fewer data lines — and each record becomes a
`LegacyCase`. -/
def read_legacy_cases (names : List String) (num_cases : ℕ)
    (records : List ManifestRecord) : Except String (List LegacyCase) :=
  read_cases_loop names (records.take num_cases)

lemma canonical_dict_some {names : List String} {key orig : String}
    (h : canonical_dict names key = some orig) :
    orig ∈ names ∧ pyLower orig = key := by
  have hmem : orig ∈ names.filter (fun n => pyLower n == key) :=
    List.mem_of_mem_getLast? h
  have := List.mem_filter.1 hmem
  exact ⟨this.1, by simpa using this.2⟩

lemma canonical_dict_none {names : List String} {key : String}
    (h : canonical_dict names key = none) :
    ∀ n ∈ names, pyLower n ≠ key := by
  intro n hn
  have hfil : names.filter (fun m => pyLower m == key) = [] :=
    List.getLast?_eq_none_iff.1 h
  have := List.filter_eq_nil_iff.1 hfil n hn
  simpa using this

lemma canonical_dict_isSome {names : List String} {key : String}
    (h : ∃ n ∈ names, pyLower n = key) :
    ∃ orig, canonical_dict names key = some orig := by
  obtain ⟨n, hn, hkey⟩ := h
  have hne : names.filter (fun m => pyLower m == key) ≠ [] := by
    intro hnil
    have := List.filter_eq_nil_iff.1 hnil n hn
    simp [hkey] at this
  have := List.getLast?_isSome.mpr hne
  exact Option.isSome_iff_exists.mp this

lemma read_cases_loop_error {names : List String} {r : ManifestRecord}
    {e : String} (he : case_of_record names r = Except.error e) :
    ∀ records, r ∈ records →
      ∃ e', read_cases_loop names records = Except.error e' := by
  intro records
  induction records with
  | nil => intro h; cases h
  | cons hd tl ih =>
    intro hmem
    rcases List.mem_cons.1 hmem with heq | htl
    · subst heq
      exact ⟨e, by simp [read_cases_loop, he]⟩
    · rcases ih htl with ⟨e', he'⟩
      cases hhd : case_of_record names hd with
      | error e0 => exact ⟨e0, by simp [read_cases_loop, hhd]⟩
      | ok c => exact ⟨e', by simp [read_cases_loop, hhd, he']⟩

/-- C4: manifest names are resolved case-insensitively against the
archive listing: a successful lookup in `canonical_dict` returns an entry
of the archive in its original casing whose lowered form equals the
looked-up key; a lookup succeeds exactly when some entry lowers to the
key; when no entry matches, the lookup reports no entry and
`read_legacy_cases` fails with a `KeyError` on the record referencing the
unmatched name instead of yielding its case.  The per-case keys are
`input/` and `output/` joined with the lowered manifest name, and
`config.ini` is looked up through the very same map (case.py line 121). -/
theorem canonical_lookup (names : List String) (key : String) :
    (∀ orig, canonical_dict names key = some orig →
      orig ∈ names ∧ pyLower orig = key) ∧
    ((∃ n ∈ names, pyLower n = key) ↔
      ∃ orig, canonical_dict names key = some orig) ∧
    (canonical_dict names key = none → ∀ n ∈ names, pyLower n ≠ key) ∧
    (∀ (r : ManifestRecord) (records : List ManifestRecord), r ∈ records →
      canonical_dict names ("input/" ++ pyLower r.input) = none →
      ∃ e, read_cases_loop names records = Except.error e) := by
  refine ⟨fun orig h => canonical_dict_some h,
          ⟨canonical_dict_isSome, ?_⟩,
          fun h => canonical_dict_none h, ?_⟩
  · rintro ⟨orig, horig⟩
    exact ⟨orig, (canonical_dict_some horig).1, (canonical_dict_some horig).2⟩
  · intro r records hmem hnone
    have he : case_of_record names r = Except.error "KeyError" := by
      unfold case_of_record
      rw [hnone]
    exact read_cases_loop_error he records hmem

/-- Witness for C4 at concrete inputs: the manifest name `Input1.TXT`
resolves against an archive entry named `input/input1.txt`, in the
entry's original casing. -/
theorem canonical_lookup_w :
    "input/input1.txt" ∈ ["config.ini", "input/input1.txt"] ∧
    pyLower "input/input1.txt" = "input/" ++ pyLower "Input1.TXT" :=
  (canonical_lookup ["config.ini", "input/input1.txt"]
      ("input/" ++ pyLower "Input1.TXT")).1 "input/input1.txt" rfl

/-- Archive listing of the sample archive used by the concrete
theorems: a manifest plus one input and one output entry, with mixed
casing to exercise the case-insensitive lookup. -/
def sampleNames : List String := ["Config.INI", "input/a.txt", "output/B.txt"]

/-- Sample manifest record `a.txt|B.TXT|1.0|100` (no memory column). -/
def sampleRecord : ManifestRecord :=
  { input := "a.txt", output := "B.TXT", time_sec := 1, score := 100,
    mem_kb := none }

lemma read_cases_loop_length (names : List String) :
    ∀ {records : List ManifestRecord} {cs : List LegacyCase},
      read_cases_loop names records = Except.ok cs →
      cs.length = records.length := by
  intro records
  induction records with
  | nil =>
    intro cs h
    simp only [read_cases_loop] at h
    cases h
    rfl
  | cons r rest ih =>
    intro cs h
    simp only [read_cases_loop] at h
    cases hr : case_of_record names r with
    | error e => rw [hr] at h; cases h
    | ok c =>
      rw [hr] at h
      cases hrest : read_cases_loop names rest with
      | error e => rw [hrest] at h; cases h
      | ok cs' =>
        rw [hrest] at h
        cases h
        simp [ih hrest]

/-- Counterexample to C5: a manifest declaring `2` cases over a single
data line.  `islice` stops at the end of the manifest, so
`read_legacy_cases` completes normally with one case — it does not fail
with a parse error. -/
theorem read_count_overflow_cex :
    read_legacy_cases sampleNames 2 [sampleRecord] =
      Except.ok [LegacyCase.init "input/a.txt" "output/B.txt" 1
        (DEFAULT_MEM_KB : ℚ) 100] ∧
    [LegacyCase.init "input/a.txt" "output/B.txt" 1
        (DEFAULT_MEM_KB : ℚ) 100].length < 2 :=
  ⟨rfl, by decide⟩

/-- C5 as amended: when the declared count exceeds the number of manifest
data lines, `read_legacy_cases` completes normally and yields one case
per available line — `min num_cases records.length` cases in all — rather
than failing. -/
theorem read_count_truncates (names : List String) (num_cases : ℕ)
    (records : List ManifestRecord) (cs : List LegacyCase)
    (h : read_legacy_cases names num_cases records = Except.ok cs) :
    cs.length = min num_cases records.length := by
  have := read_cases_loop_length names h
  simpa [List.length_take] using this

/-- Witness for C5's amended claim: declared count 2 over one data line
yields exactly `min 2 1 = 1` case. -/
theorem read_count_truncates_w :
    [LegacyCase.init "input/a.txt" "output/B.txt" 1
        (DEFAULT_MEM_KB : ℚ) 100].length = min 2 1 :=
  read_count_truncates sampleNames 2 [sampleRecord] _ rfl

/-- C6: a record whose memory column was absent or unparsable (modelled
by `mem_kb = none`, the `except (IndexError, ValueError)` branch) yields
a case with the default memory limit of 262144 KB, i.e.
`memory_limit_bytes = 262144 * 1024`; a record whose column parsed as `m`
yields `memory_limit_bytes = int(m * 1024)`, truncation toward zero. -/
theorem mem_limit_of_record (names : List String) (r : ManifestRecord)
    (lc : LegacyCase) (h : case_of_record names r = Except.ok lc) :
    (r.mem_kb = none → lc.memory_limit_bytes = 262144 * 1024) ∧
    (∀ m, r.mem_kb = some m → lc.memory_limit_bytes = pyTrunc (m * 1024)) := by
  unfold case_of_record at h
  cases hi : canonical_dict names ("input/" ++ pyLower r.input) with
  | none => rw [hi] at h; cases h
  | some i =>
    cases ho : canonical_dict names ("output/" ++ pyLower r.output) with
    | none => rw [hi, ho] at h; cases h
    | some o =>
      rw [hi, ho] at h
      cases h
      constructor
      · intro hnone
        simp only [hnone, Option.getD_none]
        show pyTrunc ((DEFAULT_MEM_KB : ℚ) * 1024) = 262144 * 1024
        norm_num [pyTrunc, DEFAULT_MEM_KB]
      · intro m hm
        simp only [hm, Option.getD_some]
        rfl

/-- Witness for C6: the sample record has no memory column and its case
gets `memory_limit_bytes = 262144 * 1024`. -/
theorem mem_limit_of_record_w :
    (LegacyCase.init "input/a.txt" "output/B.txt" 1
        (DEFAULT_MEM_KB : ℚ) 100).memory_limit_bytes = 262144 * 1024 :=
  (mem_limit_of_record sampleNames sampleRecord _ rfl).1 rfl

/-- C7: the time column `t` (seconds) of a record becomes
`time_limit_ns = int(t * 1e9)`; for the nonnegative times a manifest
carries this is exact multiplication by `10 ^ 9` followed by downward
truncation, and `t = 1` gives exactly `1000000000`. -/
theorem time_limit_of_record (names : List String) (r : ManifestRecord)
    (lc : LegacyCase) (h : case_of_record names r = Except.ok lc)
    (ht : 0 ≤ r.time_sec) :
    lc.time_limit_ns = ⌊r.time_sec * 10 ^ 9⌋ ∧
    (r.time_sec = 1 → lc.time_limit_ns = 1000000000) := by
  unfold case_of_record at h
  cases hi : canonical_dict names ("input/" ++ pyLower r.input) with
  | none => rw [hi] at h; cases h
  | some i =>
    cases ho : canonical_dict names ("output/" ++ pyLower r.output) with
    | none => rw [hi, ho] at h; cases h
    | some o =>
      rw [hi, ho] at h
      cases h
      have hfloor : (LegacyCase.init i o r.time_sec
          (r.mem_kb.getD (DEFAULT_MEM_KB : ℚ)) r.score).time_limit_ns =
          ⌊r.time_sec * 10 ^ 9⌋ := by
        show pyTrunc (r.time_sec * 10 ^ 9) = ⌊r.time_sec * 10 ^ 9⌋
        have : (0 : ℚ) ≤ r.time_sec * 10 ^ 9 := by positivity
        simp [pyTrunc, this]
      refine ⟨hfloor, fun h1 => ?_⟩
      rw [hfloor, h1]
      norm_num

/-- Witness for C7: the sample record's time column is `1.0`, giving
`time_limit_ns = 1000000000`. -/
theorem time_limit_of_record_w :
    (LegacyCase.init "input/a.txt" "output/B.txt" 1
        (DEFAULT_MEM_KB : ℚ) 100).time_limit_ns = 1000000000 :=
  (time_limit_of_record sampleNames sampleRecord _ rfl
    (by norm_num [sampleRecord])).2 rfl

lemma read_cases_loop_process_limit {names : List String} :
    ∀ {records : List ManifestRecord} {cs : List LegacyCase},
      read_cases_loop names records = Except.ok cs →
      ∀ c ∈ cs, c.process_limit = PROCESS_LIMIT := by
  intro records
  induction records with
  | nil =>
    intro cs h
    simp only [read_cases_loop] at h
    cases h
    intro c hc
    cases hc
  | cons r rest ih =>
    intro cs h
    simp only [read_cases_loop] at h
    cases hr : case_of_record names r with
    | error e => rw [hr] at h; cases h
    | ok c0 =>
      rw [hr] at h
      cases hrest : read_cases_loop names rest with
      | error e => rw [hrest] at h; cases h
      | ok cs' =>
        rw [hrest] at h
        cases h
        intro c hc
        rcases List.mem_cons.1 hc with heq | htl
        · subst heq
          unfold case_of_record at hr
          cases hi : canonical_dict names ("input/" ++ pyLower r.input) with
          | none => rw [hi] at hr; cases hr
          | some i =>
            cases ho : canonical_dict names ("output/" ++ pyLower r.output) with
            | none => rw [hi, ho] at hr; cases hr
            | some o => rw [hi, ho] at hr; cases hr; rfl
        · exact ih hrest c htl

/-- C10: every case the code can construct carries
`process_limit = 64`: the `LegacyCase` and `APlusBCase` constructors take
no process-limit parameter and always pass the module constant
`PROCESS_LIMIT = 64` to `CaseBase.__init__`, so in particular every case
produced by the archive reader has `process_limit = 64`. -/
theorem process_limit_fixed :
    (∀ (i o : String) (t mk : ℚ) (s : ℤ),
      (LegacyCase.init i o t mk s).process_limit = 64) ∧
    (∀ a b tl ml s : ℤ, (APlusBCase.init a b tl ml s).process_limit = 64) ∧
    (∀ (names : List String) (num_cases : ℕ)
        (records : List ManifestRecord) (cs : List LegacyCase),
      read_legacy_cases names num_cases records = Except.ok cs →
      ∀ c ∈ cs, c.process_limit = 64) :=
  ⟨fun _ _ _ _ _ => rfl, fun _ _ _ _ _ => rfl,
   fun _ _ _ _ h c hc => read_cases_loop_process_limit h c hc⟩

/-- Witness for C10: the case read from the sample archive has
`process_limit = 64`. -/
theorem process_limit_fixed_w :
    (LegacyCase.init "input/a.txt" "output/B.txt" 1
        (DEFAULT_MEM_KB : ℚ) 100).process_limit = 64 :=
  process_limit_fixed.2.2 sampleNames 2 [sampleRecord] _ rfl _
    (List.mem_singleton_self _)

lemma digitChar_ne_lf (n : ℕ) : Nat.digitChar n ≠ '\n' := by
  rcases n with _|_|_|_|_|_|_|_|_|_|_|_|_|_|_|_|m
  case succ =>
    show Nat.digitChar (m + 16) ≠ '\n'
    unfold Nat.digitChar
    repeat rw [if_neg (by omega)]
    decide
  all_goals decide

lemma toDigitsCore_ne_lf :
    ∀ (fuel n : ℕ) (ds : List Char), (∀ c ∈ ds, c ≠ '\n') →
      ∀ c ∈ Nat.toDigitsCore 10 fuel n ds, c ≠ '\n' := by
  intro fuel
  induction fuel with
  | zero =>
    intro n ds h c hc
    exact h c hc
  | succ f ih =>
    intro n ds h c hc
    rw [Nat.toDigitsCore] at hc
    by_cases hz : n / 10 = 0
    · rw [if_pos hz] at hc
      rcases List.mem_cons.1 hc with heq | htl
      · subst heq; exact digitChar_ne_lf _
      · exact h c htl
    · rw [if_neg hz] at hc
      refine ih (n / 10) _ ?_ c hc
      intro c' hc'
      rcases List.mem_cons.1 hc' with heq | htl
      · subst heq; exact digitChar_ne_lf _
      · exact h c' htl

lemma nat_repr_ne_lf (n : ℕ) : '\n' ∉ (Nat.repr n).data := by
  intro hmem
  have h : ('\n' : Char) ≠ '\n' := by
    refine toDigitsCore_ne_lf (n + 1) n [] ?_ '\n' ?_
    · intro c hc; cases hc
    · simpa [Nat.repr, Nat.toDigits, List.asString] using hmem
  exact h rfl

lemma int_repr_ne_lf (n : ℤ) : '\n' ∉ (toString n).data := by
  cases n with
  | ofNat m =>
    simpa [toString, Int.repr] using nat_repr_ne_lf m
  | negSucc m =>
    intro hmem
    have h : (toString (Int.negSucc m)).data = '-' :: (Nat.repr (m + 1)).data := by
      show (Int.repr (Int.negSucc m)).data = _
      simp [Int.repr, String.data_append]
    rw [h] at hmem
    rcases List.mem_cons.1 hmem with heq | htl
    · cases heq
    · exact nat_repr_ne_lf (m + 1) htl

/-- C9: `APlusBCase.do_stdin` writes exactly the decimal rendering of
`a`, one space, the decimal rendering of `b` and one newline to the stdin
pipe, and `APlusBCase.do_stdout` returns the comparator's result on the
actual output against an expected stream that is exactly the decimal
string of `a + b`, a string that contains no newline at all — in
particular no trailing one. -/
theorem aplusb_io (σ : Type) (c : APlusBCase)
    (compare_stream : String → σ → Bool) (out : σ) :
    c.stdin_payload = toString c.a ++ " " ++ toString c.b ++ "\n" ∧
    c.do_stdout compare_stream out = compare_stream (toString (c.a + c.b)) out ∧
    '\n' ∉ (toString (c.a + c.b)).data :=
  ⟨rfl, rfl, int_repr_ne_lf (c.a + c.b)⟩

/-- Witness for C9: operands 3 and 4 give the stdin text `3 4` followed
by a newline, the expected stream `7` handed to the comparator, and a
newline-free expected stream. -/
theorem aplusb_io_w :
    (APlusBCase.init 3 4 1 1 1).stdin_payload =
      toString (3 : ℤ) ++ " " ++ toString (4 : ℤ) ++ "\n" ∧
    (APlusBCase.init 3 4 1 1 1).do_stdout (fun e o => e == o) "7" =
      ((toString ((3 : ℤ) + 4)) == "7") ∧
    '\n' ∉ (toString ((3 : ℤ) + 4)).data :=
  aplusb_io String (APlusBCase.init 3 4 1 1 1) (fun e o => e == o) "7"

end JD4
